import Mathlib

/-!
Verification of the r-fsrs binding layer (src/rust/src/lib.rs).

The repository consists of a single Rust file exposing FSRS operations to R.
Floating-point values (f64/f32) are idealised as real numbers; machine
integer casts (i32 to u32, i32 to usize) are modelled by explicit wrapping
modulo 2^32 and 2^64.  Calls into the external fsrs crate are modelled
either abstractly (as function parameters, when the claim at hand does not
depend on the crate's internals) or, where the claim needs them, by
definitions modelled from the specification and marked as such.
-/

namespace RFsrs

/-- The DECAY constant from the source (line 4). -/
noncomputable def DECAY : ℝ := -0.5

/-- The FACTOR constant from the source (line 5): 19.0 / 81.0. -/
noncomputable def FACTOR : ℝ := (19 : ℝ) / 81

/-- Rust cast of an i32 value to u32 (wrapping, used for delta_t and rating). -/
def wrapU32 (t : Int) : Nat := (t % (2 ^ 32 : Int)).toNat

/-- Rust cast of an i32 value to usize (wrapping, used for card start indices). -/
def wrapU64 (t : Int) : Nat := (t % (2 ^ 64 : Int)).toNat

/-- The rating actually used by the binding:
the source expression (rating as u32).min(4).max(1). -/
def ratingUsed (rating : Int) : Nat := Nat.max (Nat.min (wrapU32 rating) 4) 1

/-- fsrs_retrievability from the source (lines 114-119). -/
noncomputable def fsrs_retrievability (stability elapsed_days : ℝ) : ℝ :=
  if stability ≤ 0 then 1
  else (1 + FACTOR * elapsed_days / stability) ^ DECAY

/-- fsrs_retrievability_vec from the source (lines 122-133); the closure body
duplicates the scalar formula, as the source does. -/
noncomputable def fsrs_retrievability_vec (stability elapsed_days : List ℝ) : List ℝ :=
  (stability.zip elapsed_days).map fun p =>
    if p.1 ≤ 0 then 1 else (1 + FACTOR * p.2 / p.1) ^ DECAY

/-- A memory state of the fsrs crate: stability and difficulty. -/
structure MemoryState where
  stability : ℝ
  difficulty : ℝ

/-- One review as built by the binding: a clamped rating and a wrapped
delta_t, both already cast to unsigned integers. -/
structure FSRSReview where
  rating : Nat
  delta_t : Nat
  deriving DecidableEq

/-- The four-branch record returned by the crate's next_states (one entry
per rating Again/Hard/Good/Easy). -/
structure Quad (α : Type) where
  again : α
  hard : α
  good : α
  easy : α

/-- The four-way match on the clamped rating used by fsrs_initial_state and
fsrs_next_state (source lines 31-37 and 59-65), including the unreachable
default arm that picks the good branch. -/
def pickState (st : Quad MemoryState) (r : Nat) : MemoryState :=
  match r with
  | 1 => st.again
  | 2 => st.hard
  | 3 => st.good
  | 4 => st.easy
  | _ => st.good

/-- The match on the pair of optional stability/difficulty arguments used by
fsrs_repeat (lines 82-88) and fsrs_memory_state (lines 183-189): only when
both are present is a prior MemoryState constructed. -/
def pairState (s d : Option ℝ) : Option MemoryState :=
  match s, d with
  | some s, some d => some ⟨s, d⟩
  | _, _ => none

/-- fsrs_initial_state from the source (lines 27-42).  The crate call
fsrs.next_states(None, 0.0, 0) is abstracted as the parameter next_states
(the claims about this function do not depend on the crate's internals). -/
def fsrs_initial_state (next_states : Option MemoryState → ℝ → Quad MemoryState)
    (rating : Int) : MemoryState :=
  pickState (next_states none 0) (ratingUsed rating)

/-- fsrs_next_state from the source (lines 45-70), with the crate call
abstracted as next_states. -/
def fsrs_next_state (next_states : Option MemoryState → ℝ → Quad MemoryState)
    (stability difficulty elapsed_days : ℝ) (rating : Int) : MemoryState :=
  pickState (next_states (some ⟨stability, difficulty⟩) elapsed_days) (ratingUsed rating)

/-- Modelled from the spec: the crate's next_interval, absent from src/
(section 4.2): interval = (stability / FACTOR) * (desired_retention ^ (1/DECAY) - 1),
rounded to a whole number of days with a minimum of 1. -/
noncomputable def crate_next_interval (stability desired_retention : ℝ) : ℝ :=
  max 1 ((round ((stability / FACTOR) * (desired_retention ^ ((1 : ℝ) / DECAY) - 1)) : ℤ) : ℝ)

/-- fsrs_next_interval from the source (lines 20-24): it forwards directly to
the crate and returns a plain number; no validation of desired_retention
happens anywhere in the call, and the params argument only selects the crate
instance (which next_interval does not consult). -/
noncomputable def fsrs_next_interval (stability desired_retention : ℝ)
    ( _params : Option (List ℝ)) : ℝ :=
  crate_next_interval stability desired_retention

/-- The outcome record produced by fsrs_repeat for one rating branch. -/
structure Outcome where
  stability : ℝ
  difficulty : ℝ
  interval : ℝ

/-- The make_outcome closure of fsrs_repeat (lines 92-103). -/
noncomputable def makeOutcome (desired_retention : ℝ) (m : MemoryState) : Outcome :=
  ⟨m.stability, m.difficulty, crate_next_interval m.stability desired_retention⟩

/-- fsrs_repeat from the source (lines 73-111), with the crate's next_states
abstracted as a parameter. -/
noncomputable def fsrs_repeat (next_states : Option MemoryState → ℝ → Quad MemoryState)
    (stability difficulty : Option ℝ) (elapsed_days desired_retention : ℝ) :
    Quad Outcome :=
  let state := pairState stability difficulty
  let states := next_states state elapsed_days
  ⟨makeOutcome desired_retention states.again,
    makeOutcome desired_retention states.hard,
    makeOutcome desired_retention states.good,
    makeOutcome desired_retention states.easy⟩

/-- Errors of the crate surfaced in the spec's error model. -/
inductive FSRSError where
  | EmptyHistory

/-- Modelled from the spec: the crate's memory_state, absent from src/
(section 4.3): a left fold of the per-review state update over the history,
seeded with the optional initial state (the none seed makes the first update
derive the initial state from the first review); fails if the history is
empty.  The per-review update itself is abstracted as the parameter core. -/
def crate_memory_state (core : Option MemoryState → FSRSReview → MemoryState) :
    List FSRSReview → Option MemoryState → Except FSRSError MemoryState
  | [], _ => Except.error FSRSError.EmptyHistory
  | r :: rs, initial => Except.ok (rs.foldl (fun st rv => core (some st) rv) (core initial r))

/-- fsrs_memory_state from the source (lines 163-197).  The reviews are built
by zipping ratings with delta_ts and clamping/wrapping each entry; the crate
result is unwrapped, so an error from the crate is a panic, modelled as none. -/
def fsrs_memory_state (core : Option MemoryState → FSRSReview → MemoryState)
    (ratings delta_ts : List Int) (initial_stability initial_difficulty : Option ℝ) :
    Option MemoryState :=
  let reviews := (ratings.zip delta_ts).map fun p =>
    (⟨ratingUsed p.1, wrapU32 p.2⟩ : FSRSReview)
  (crate_memory_state core reviews (pairState initial_stability initial_difficulty)).toOption

/-- The card_reviews vector of one window (source lines 225-230 and 299-304),
reading ratings and delta_ts at indices start..end by default-valued
indexing.  The safety theorem for C10 shows that for every processed window
these indices are in bounds, so the defaults are never consulted. -/
def cardReviews (ratings delta_ts : List Int) (s e : Nat) : List FSRSReview :=
  (List.range' s (e - s)).map fun i =>
    ⟨ratingUsed (ratings.getD i 0), wrapU32 (delta_ts.getD i 0)⟩

/-- The per-prefix filter of the source (line 234 and 308): some review of
the prefix has positive delta_t. -/
def hasSignal (revs : List FSRSReview) : Bool :=
  revs.any fun r => 0 < r.delta_t

/-- The inner loop of the item construction (source lines 232-238 and
306-312): one item per prefix length i in 2..=len, kept only when the prefix
has a review with positive delta_t. -/
def prefixItems (revs : List FSRSReview) : List (List FSRSReview) :=
  (List.range' 2 (revs.length - 1)).filterMap fun i =>
    if hasSignal (revs.take i) then some (revs.take i) else none

/-- The starts vector (source lines 211-212 and 286-287): 1-based card starts
converted to 0-based by an i32 subtraction cast to usize (wrapping), with the
ratings length pushed as end marker. -/
def startsList (ratings card_starts : List Int) : List Nat :=
  card_starts.map (fun x => wrapU64 (x - 1)) ++ [ratings.length]

/-- Rust's slice windows(2): the list of adjacent pairs. -/
def windowPairs : List Nat → List (Nat × Nat)
  | a :: b :: rest => (a, b) :: windowPairs (b :: rest)
  | _ => []

/-- The training-item construction shared verbatim by fsrs_optimize (lines
210-239) and fsrs_evaluate (lines 286-313): windows whose start is at or
past their end, or whose end exceeds the ratings length, are skipped; every
other window contributes its prefix items. -/
def buildItems (ratings delta_ts card_starts : List Int) : List (List FSRSReview) :=
  ((windowPairs (startsList ratings card_starts)).map fun p =>
    if p.1 ≥ p.2 ∨ p.2 > ratings.length then []
    else prefixItems (cardReviews ratings delta_ts p.1 p.2)).flatten

/-- Reading one review with genuine bounds-checked indexing (none is Rust's
index-out-of-bounds panic). -/
def reviewAt (ratings delta_ts : List Int) (i : Nat) : Option FSRSReview :=
  match ratings[i]?, delta_ts[i]? with
  | some r, some t => some (⟨ratingUsed r, wrapU32 t⟩ : FSRSReview)
  | _, _ => none

/-- Sequencing of optional results over a list: none as soon as one element
fails (panic propagation). -/
def mapOption {α β : Type} (f : α → Option β) : List α → Option (List β)
  | [] => some []
  | a :: l =>
    match f a, mapOption f l with
    | some b, some bl => some (b :: bl)
    | _, _ => none

/-- The card_reviews vector built with bounds-checked indexing. -/
def cardReviewsChecked (ratings delta_ts : List Int) (s e : Nat) :
    Option (List FSRSReview) :=
  mapOption (reviewAt ratings delta_ts) (List.range' s (e - s))

/-- The item construction with bounds-checked indexing: none would mean some
window of the source loop reads ratings or delta_ts out of bounds. -/
def buildItemsChecked (ratings delta_ts card_starts : List Int) :
    Option (List (List FSRSReview)) :=
  (mapOption (fun p : Nat × Nat =>
    if p.1 ≥ p.2 ∨ p.2 > ratings.length then some []
    else (cardReviewsChecked ratings delta_ts p.1 p.2).map prefixItems)
    (windowPairs (startsList ratings card_starts))).map List.flatten

/-- The card segments delimited by card_starts: the review lists of the
in-range windows. -/
def cardSegments (ratings delta_ts card_starts : List Int) :
    List (List FSRSReview) :=
  (windowPairs (startsList ratings card_starts)).filterMap fun p =>
    if p.1 < p.2 ∧ p.2 ≤ ratings.length then
      some (cardReviews ratings delta_ts p.1 p.2)
    else none

/-- All prefixes of a review list, shortest first. -/
def listPrefixes (revs : List FSRSReview) : List (List FSRSReview) :=
  (List.range (revs.length + 1)).map fun i => revs.take i

/-- Training items of one history, following the spec's words (section 4.6
step 1): one item per prefix of length at least 2, discarding prefixes in
which every review has elapsed_days equal to 0. -/
def specTrainingItems (revs : List FSRSReview) : List (List FSRSReview) :=
  (listPrefixes revs).filter fun p => 2 ≤ p.length ∧ hasSignal p

/-- The whole training set, following the spec's words: the concatenation of
the training items of each card segment. -/
def specTrainingSet (ratings delta_ts card_starts : List Int) :
    List (List FSRSReview) :=
  ((cardSegments ratings delta_ts card_starts).map specTrainingItems).flatten

/-- The list returned by fsrs_optimize (source list! with parameters, success
and error fields). -/
structure OptimizeResult where
  parameters : List ℝ
  success : Bool
  error : Option String

/-- fsrs_optimize from the source (lines 203-275).  The crate call
fsrs.compute_parameters is abstracted as the parameter compute_parameters;
the error branch's format string is abstracted as the error message itself. -/
def fsrs_optimize
    (compute_parameters : List (List FSRSReview) → Bool → Except String (List ℝ))
    (ratings delta_ts card_starts : List Int) (enable_short_term : Bool) :
    OptimizeResult :=
  let items := buildItems ratings delta_ts card_starts
  if items.isEmpty then
    ⟨[], false, some "No valid review data provided"⟩
  else
    match compute_parameters items enable_short_term with
    | Except.ok output => ⟨output, true, none⟩
    | Except.error e => ⟨[], false, some e⟩

/-- The list returned by fsrs_evaluate.  The source writes NaN into log_loss
and rmse_bins on failure; the non-finite marker is modelled as none. -/
structure EvaluateResult where
  log_loss : Option ℝ
  rmse_bins : Option ℝ
  success : Bool

/-- fsrs_evaluate from the source (lines 277-339), with the crate call
fsrs.evaluate abstracted as the parameter evaluateMetrics (applied to the
params vector the binding passes to create_fsrs). -/
def fsrs_evaluate
    (evaluateMetrics : List ℝ → List (List FSRSReview) → Except Unit (ℝ × ℝ))
    (ratings delta_ts card_starts : List Int) (params : List ℝ) : EvaluateResult :=
  let items := buildItems ratings delta_ts card_starts
  if items.isEmpty then
    ⟨none, none, false⟩
  else
    match evaluateMetrics params items with
    | Except.ok m => ⟨some m.1, some m.2, true⟩
    | Except.error _ => ⟨none, none, false⟩

/-- C1: fsrs_retrievability returns 1 when stability is nonpositive, otherwise
the power-law value (1 + (19/81) * elapsed_days / stability) ^ (-0.5); in
particular it returns 1 at elapsed_days = 0 for every positive stability. -/
theorem fsrs_retrievability_contract (s t : ℝ) :
    (s ≤ 0 → fsrs_retrievability s t = 1)
    ∧ (0 < s → fsrs_retrievability s t = (1 + (19 / 81) * t / s) ^ (-(1 / 2) : ℝ))
    ∧ (0 < s → fsrs_retrievability s 0 = 1) := by
  refine ⟨fun h => ?_, fun h => ?_, fun h => ?_⟩
  · simp [fsrs_retrievability, h]
  · rw [fsrs_retrievability, if_neg (not_le.2 h)]
    norm_num [FACTOR, DECAY]
  · rw [fsrs_retrievability, if_neg (not_le.2 h)]
    simp [Real.one_rpow]

/-- Witness for C1: concrete application at stability 10, elapsed 0. -/
theorem fsrs_retrievability_contract_witness :
    0 < (10 : ℝ) ∧ fsrs_retrievability 10 0 = 1 :=
  ⟨by norm_num, (fsrs_retrievability_contract 10 0).2.2 (by norm_num)⟩

/-- C7: the vectorized retrievability has the same length as its (equal-length)
inputs, equals the element-wise map of the scalar function over the zipped
inputs, agrees with the scalar function at every index, and maps empty inputs
to the empty list. -/
theorem fsrs_retrievability_vec_elementwise (s t : List ℝ) (h : s.length = t.length) :
    (fsrs_retrievability_vec s t).length = s.length
    ∧ fsrs_retrievability_vec s t = (s.zip t).map (fun p => fsrs_retrievability p.1 p.2)
    ∧ (∀ i, i < s.length →
        (fsrs_retrievability_vec s t).getD i 0
          = fsrs_retrievability (s.getD i 0) (t.getD i 0))
    ∧ fsrs_retrievability_vec [] [] = ([] : List ℝ) := by
  have hmap : fsrs_retrievability_vec s t
      = (s.zip t).map fun p => fsrs_retrievability p.1 p.2 := rfl
  have hlen : (fsrs_retrievability_vec s t).length = s.length := by
    rw [hmap]
    simp [List.length_zip, h]
  refine ⟨hlen, hmap, fun i hi => ?_, rfl⟩
  have hiv : i < (fsrs_retrievability_vec s t).length := by rw [hlen]; exact hi
  have hit : i < t.length := h ▸ hi
  rw [List.getD_eq_getElem _ _ hiv, List.getD_eq_getElem _ _ hi,
    List.getD_eq_getElem _ _ hit]
  simp [hmap, List.getElem_zip]

/-- Witness for C7: concrete application at stability list [1, 0] and
elapsed list [0, 5]. -/
theorem fsrs_retrievability_vec_elementwise_witness :
    ([(1 : ℝ), 0]).length = ([(0 : ℝ), 5]).length
    ∧ ((fsrs_retrievability_vec [1, 0] [0, 5]).length = ([(1 : ℝ), 0]).length
      ∧ fsrs_retrievability_vec [1, 0] [0, 5]
          = (([(1 : ℝ), 0]).zip [(0 : ℝ), 5]).map (fun p => fsrs_retrievability p.1 p.2)
      ∧ (∀ i, i < ([(1 : ℝ), 0]).length →
          (fsrs_retrievability_vec [1, 0] [0, 5]).getD i 0
            = fsrs_retrievability (([(1 : ℝ), 0]).getD i 0) (([(0 : ℝ), 5]).getD i 0))
      ∧ fsrs_retrievability_vec [] [] = ([] : List ℝ)) :=
  ⟨rfl, fsrs_retrievability_vec_elementwise [1, 0] [0, 5] rfl⟩

/-- On an already-clamped value the clamp is the identity. -/
theorem ratingUsed_small (k : Nat) (h1 : 1 ≤ k) (h4 : k ≤ 4) :
    ratingUsed (k : Int) = k := by
  interval_cases k <;> decide

/-- C3 counterexample: the claim says ratings below 1 saturate to 1 (Again),
but the i32-to-u32 cast wraps rating -1 to 4294967295, which the min/max
chain then clamps to 4 (Easy). -/
theorem rating_clamp_counterexample :
    ratingUsed (-1) = 4 ∧ ratingUsed (-1) ≠ 1 := by
  decide

/-- C3 amended: for every i32 rating, the rating actually used is
(rating as u32).min(4).max(1): it always lies in [1,4]; in-range ratings pass
through, 0 saturates to 1, ratings above 4 saturate to 4, but negative
ratings wrap modulo 2^32 and saturate to 4 (Easy); the state functions
applied to an out-of-range rating coincide with the corresponding in-range
call on the clamped rating. -/
theorem rating_clamp_amended (rating : Int)
    (h : -(2 ^ 31) ≤ rating) (h' : rating < 2 ^ 31) :
    (1 ≤ ratingUsed rating ∧ ratingUsed rating ≤ 4)
    ∧ (1 ≤ rating ∧ rating ≤ 4 → (ratingUsed rating : Int) = rating)
    ∧ (rating = 0 → ratingUsed rating = 1)
    ∧ (4 < rating → ratingUsed rating = 4)
    ∧ (rating < 0 → ratingUsed rating = 4)
    ∧ (∀ next_states, fsrs_initial_state next_states rating
        = fsrs_initial_state next_states (ratingUsed rating))
    ∧ (∀ next_states (s d e : ℝ), fsrs_next_state next_states s d e rating
        = fsrs_next_state next_states s d e (ratingUsed rating)) := by
  have h32 : (2 : Int) ^ 32 = 4294967296 := by norm_num
  have hb : 1 ≤ ratingUsed rating ∧ ratingUsed rating ≤ 4 := by
    simp only [ratingUsed, wrapU32, h32, Nat.min_def, Nat.max_def]
    split_ifs <;> omega
  have hid : ratingUsed ((ratingUsed rating : Nat) : Int) = ratingUsed rating :=
    ratingUsed_small _ hb.1 hb.2
  refine ⟨hb, ?_, ?_, ?_, ?_, fun ns => ?_, fun ns s d e => ?_⟩
  · rintro ⟨h1, h4⟩
    simp only [ratingUsed, wrapU32, h32, Nat.min_def, Nat.max_def]
    split_ifs <;> omega
  · rintro rfl
    decide
  · intro h4
    simp only [ratingUsed, wrapU32, h32, Nat.min_def, Nat.max_def]
    split_ifs <;> omega
  · intro hneg
    simp only [ratingUsed, wrapU32, h32, Nat.min_def, Nat.max_def]
    split_ifs <;> omega
  · unfold fsrs_initial_state
    rw [hid]
  · unfold fsrs_next_state
    rw [hid]

/-- Witness for C3 amended: concrete application at rating 7. -/
theorem rating_clamp_amended_witness :
    (-(2 ^ 31) ≤ (7 : Int)) ∧ ((7 : Int) < 2 ^ 31)
    ∧ ((1 ≤ ratingUsed 7 ∧ ratingUsed 7 ≤ 4)
      ∧ (1 ≤ (7 : Int) ∧ (7 : Int) ≤ 4 → (ratingUsed 7 : Int) = 7)
      ∧ ((7 : Int) = 0 → ratingUsed 7 = 1)
      ∧ (4 < (7 : Int) → ratingUsed 7 = 4)
      ∧ ((7 : Int) < 0 → ratingUsed 7 = 4)
      ∧ (∀ next_states, fsrs_initial_state next_states 7
          = fsrs_initial_state next_states (ratingUsed 7))
      ∧ (∀ next_states (s d e : ℝ), fsrs_next_state next_states s d e 7
          = fsrs_next_state next_states s d e (ratingUsed 7))) :=
  ⟨by decide, by decide, rating_clamp_amended 7 (by decide) (by decide)⟩

/-- C5: at the failing input (empty ratings and delta_ts, no initial state)
the crate's memory_state is an EmptyHistory error, and the binding's unwrap
of that error is a panic (modelled as none) rather than an explicit error
value returned to the caller. -/
theorem memory_state_empty_history_panics :
    ∀ core : Option MemoryState → FSRSReview → MemoryState,
      crate_memory_state core [] none = Except.error FSRSError.EmptyHistory
      ∧ fsrs_memory_state core [] [] none none = none :=
  fun _ => ⟨rfl, rfl⟩

/-- C9: supplying exactly one of the optional stability/difficulty pair
behaves identically to supplying neither, both in fsrs_repeat and in
fsrs_memory_state: the partial pair collapses to no prior state. -/
theorem partial_state_pair_ignored :
    (∀ (next_states : Option MemoryState → ℝ → Quad MemoryState) (s d e ret : ℝ),
        fsrs_repeat next_states (some s) none e ret
          = fsrs_repeat next_states none none e ret
        ∧ fsrs_repeat next_states none (some d) e ret
          = fsrs_repeat next_states none none e ret)
    ∧ (∀ (core : Option MemoryState → FSRSReview → MemoryState)
        (ratings delta_ts : List Int) (s d : ℝ),
        fsrs_memory_state core ratings delta_ts (some s) none
          = fsrs_memory_state core ratings delta_ts none none
        ∧ fsrs_memory_state core ratings delta_ts none (some d)
          = fsrs_memory_state core ratings delta_ts none none) :=
  ⟨fun _ _ _ _ _ => ⟨rfl, rfl⟩, fun _ _ _ _ _ => ⟨rfl, rfl⟩⟩

/-- C4: fsrs_next_interval performs no validation of desired_retention: at
the out-of-range value 2.0 (with stability 1 and default parameters) it
returns the plain numeric result 1.0 — the formula value rounds to -3 and is
then raised to the 1-day minimum — instead of signalling an
InvalidRetention-class failure. -/
theorem next_interval_no_validation : fsrs_next_interval 1 2 none = 1 := by
  unfold fsrs_next_interval crate_next_interval
  have hd : (1 : ℝ) / DECAY = ((-2 : ℤ) : ℝ) := by
    norm_num [DECAY]
  rw [hd, Real.rpow_intCast]
  have harg : (1 : ℝ) / FACTOR * ((2 : ℝ) ^ (-2 : ℤ) - 1) = -243 / 76 := by
    norm_num [FACTOR]
  rw [harg]
  have hr : round ((-243 : ℝ) / 76) = -3 := by
    rw [round_eq]
    norm_num
  rw [hr]
  rw [show (((-3 : ℤ) : ℝ)) = (-3 : ℝ) by push_cast; ring]
  rw [max_eq_left (by norm_num : (-3 : ℝ) ≤ 1)]

/-- A filterMap by a guarded some is a filter followed by a map. -/
theorem filterMap_guard {α β : Type} (q : α → Bool) (f : α → β) (l : List α) :
    (l.filterMap fun a => if q a then some (f a) else none) = (l.filter q).map f := by
  induction l with
  | nil => rfl
  | cons a l ih =>
    by_cases h : q a <;>
      simp [List.filterMap_cons, List.filter_cons, h, ih]

/-- The source's inner loop over prefix lengths 2..=len is exactly the spec's
description: all prefixes of length at least 2 that have temporal signal. -/
theorem prefixItems_eq_specTrainingItems (revs : List FSRSReview) :
    prefixItems revs = specTrainingItems revs := by
  unfold prefixItems specTrainingItems listPrefixes
  rw [filterMap_guard (fun i => hasSignal (revs.take i)) (fun i => revs.take i),
    List.filter_map]
  congr 1
  rcases hn : revs.length with _ | m
  · simp [List.range_eq_range', List.range'_succ, List.filter_cons, List.take_of_length_le,
      hn, hasSignal]
  · rw [List.range_eq_range']
    have hsplit : List.range' 0 (m + 1 + 1) = 0 :: 1 :: List.range' 2 m := rfl
    rw [hsplit, List.filter_cons, List.filter_cons]
    have h0 : ((fun p => decide (2 ≤ p.length ∧ hasSignal p = true)) ∘
        fun i => revs.take i) 0 = false := by
      simp
    have h1 : ((fun p => decide (2 ≤ p.length ∧ hasSignal p = true)) ∘
        fun i => revs.take i) 1 = false := by
      simp [List.length_take, hn]
    rw [h0, h1]
    simp only [Bool.false_eq_true, if_false, Nat.add_sub_cancel]
    refine List.filter_congr fun i hi => ?_
    rw [List.mem_range'_1] at hi
    have h2 : 2 ≤ i := hi.1
    have hin : i ≤ m + 1 := by omega
    have hl : (revs.take i).length = i := by
      simp [List.length_take, hn]
      omega
    simp [hl, h2]

/-- C2: the training set built by fsrs_optimize is, segment by segment,
exactly one item per prefix of length at least 2 of the segment's reviews,
excluding prefixes in which every review has zero elapsed days, and nothing
else. -/
theorem optimize_training_set_refines_spec (ratings delta_ts card_starts : List Int) :
    buildItems ratings delta_ts card_starts
      = specTrainingSet ratings delta_ts card_starts := by
  unfold buildItems specTrainingSet cardSegments
  generalize windowPairs (startsList ratings card_starts) = L
  induction L with
  | nil => rfl
  | cons p L ih =>
    rw [List.map_cons, List.flatten_cons, List.filterMap_cons]
    by_cases hb : p.1 ≥ p.2 ∨ p.2 > ratings.length
    · have hg : ¬(p.1 < p.2 ∧ p.2 ≤ ratings.length) := by omega
      rw [if_pos hb, if_neg hg]
      simpa using ih
    · have hg : p.1 < p.2 ∧ p.2 ≤ ratings.length := by omega
      rw [if_neg hb, if_pos hg]
      simp only [List.map_cons, List.flatten_cons]
      rw [prefixItems_eq_specTrainingItems, ih]

/-- mapOption is a total map when every element succeeds. -/
theorem mapOption_eq_map {α β : Type} (f : α → Option β) (g : α → β) (l : List α)
    (h : ∀ a ∈ l, f a = some (g a)) : mapOption f l = some (l.map g) := by
  induction l with
  | nil => rfl
  | cons a l ih =>
    have ha := h a (List.mem_cons_self a l)
    have hl := ih fun b hb => h b (List.mem_cons_of_mem a hb)
    simp only [mapOption, ha, hl, List.map_cons]

/-- Bounds-checked reading of one review succeeds at every in-range index and
agrees with the default-valued reading. -/
theorem reviewAt_eq (ratings delta_ts : List Int) (i : Nat)
    (hi : i < ratings.length) (hlen : delta_ts.length = ratings.length) :
    reviewAt ratings delta_ts i
      = some ⟨ratingUsed (ratings.getD i 0), wrapU32 (delta_ts.getD i 0)⟩ := by
  have hit : i < delta_ts.length := by omega
  unfold reviewAt
  rw [List.getElem?_eq_getElem hi, List.getElem?_eq_getElem hit,
    List.getD_eq_getElem _ _ hi, List.getD_eq_getElem _ _ hit]

/-- Bounds-checked card_reviews succeeds whenever the window end is within
the ratings length. -/
theorem cardReviewsChecked_eq (ratings delta_ts : List Int) (s e : Nat)
    (he : e ≤ ratings.length) (hlen : delta_ts.length = ratings.length) :
    cardReviewsChecked ratings delta_ts s e
      = some (cardReviews ratings delta_ts s e) := by
  unfold cardReviewsChecked cardReviews
  refine mapOption_eq_map _ _ _ fun i hi => ?_
  rw [List.mem_range'_1] at hi
  have hil : i < ratings.length := by omega
  exact reviewAt_eq ratings delta_ts i hil hlen

/-- C10: for every card_starts vector (unsorted, duplicated, nonpositive or
past-the-end entries included) the training-item construction shared by
fsrs_optimize and fsrs_evaluate reads ratings and delta_ts only at in-bounds
indices: the bounds-checked construction never hits an out-of-bounds read and
returns exactly the skip-based construction, which drops every window whose
start is at or past its end or whose end exceeds the ratings length. -/
theorem training_construction_in_bounds (ratings delta_ts card_starts : List Int)
    (h : delta_ts.length = ratings.length) :
    buildItemsChecked ratings delta_ts card_starts
      = some (buildItems ratings delta_ts card_starts) := by
  unfold buildItemsChecked buildItems
  have hpt : ∀ p : Nat × Nat, p ∈ windowPairs (startsList ratings card_starts) →
      (fun p : Nat × Nat =>
        if p.1 ≥ p.2 ∨ p.2 > ratings.length then some []
        else (cardReviewsChecked ratings delta_ts p.1 p.2).map prefixItems) p
      = some ((fun p : Nat × Nat =>
        if p.1 ≥ p.2 ∨ p.2 > ratings.length then []
        else prefixItems (cardReviews ratings delta_ts p.1 p.2)) p) := by
    intro p hp
    by_cases hb : p.1 ≥ p.2 ∨ p.2 > ratings.length
    · simp only [if_pos hb]
    · have he : p.2 ≤ ratings.length := by omega
      simp only [if_neg hb, cardReviewsChecked_eq ratings delta_ts p.1 p.2 he h,
        Option.map_some']
  rw [mapOption_eq_map _ _ _ hpt]
  rfl

/-- Witness for C10: concrete application with unsorted, out-of-range and
negative card starts. -/
theorem training_construction_in_bounds_witness :
    ([(0 : Int), 3]).length = ([(1 : Int), 2]).length
    ∧ buildItemsChecked [1, 2] [0, 3] [0, 1, 5, -7]
        = some (buildItems [1, 2] [0, 3] [0, 1, 5, -7]) :=
  ⟨rfl, training_construction_in_bounds [1, 2] [0, 3] [0, 1, 5, -7] rfl⟩

/-- C6: when the filtered training set is empty, fsrs_optimize returns an
empty parameter vector, success false and a non-null error message, and the
result does not depend on the optimizer (which is therefore never run). -/
theorem optimize_empty_training_set (ratings delta_ts card_starts : List Int)
    (h : buildItems ratings delta_ts card_starts = []) :
    ∀ (compute_parameters : List (List FSRSReview) → Bool → Except String (List ℝ))
      (enable_short_term : Bool),
      fsrs_optimize compute_parameters ratings delta_ts card_starts enable_short_term
        = ⟨[], false, some "No valid review data provided"⟩ := by
  intro cp est
  simp [fsrs_optimize, h]

/-- Witness for C6: a single card whose reviews all have zero elapsed days. -/
theorem optimize_empty_training_set_witness :
    buildItems [3, 3] [0, 0] [1] = []
    ∧ fsrs_optimize (fun _ _ => Except.ok []) [3, 3] [0, 0] [1] true
        = ⟨[], false, some "No valid review data provided"⟩ :=
  ⟨by decide, optimize_empty_training_set [3, 3] [0, 0] [1] (by decide) _ _⟩

/-- C8: when the filtered item set is empty, fsrs_evaluate reports failure
with non-finite metrics (the NaN marker, modelled as none) and success false,
independently of the evaluator (which is therefore never run). -/
theorem evaluate_empty_item_set (ratings delta_ts card_starts : List Int)
    (params : List ℝ) (h : buildItems ratings delta_ts card_starts = []) :
    ∀ evaluateMetrics : List ℝ → List (List FSRSReview) → Except Unit (ℝ × ℝ),
      fsrs_evaluate evaluateMetrics ratings delta_ts card_starts params
        = ⟨none, none, false⟩ := by
  intro ev
  simp [fsrs_evaluate, h]

/-- Witness for C8: a single card whose reviews all have zero elapsed days. -/
theorem evaluate_empty_item_set_witness :
    buildItems [4, 4] [0, 0] [1] = []
    ∧ fsrs_evaluate (fun _ _ => Except.error ()) [4, 4] [0, 0] [1] []
        = ⟨none, none, false⟩ :=
  ⟨by decide, evaluate_empty_item_set [4, 4] [0, 0] [1] [] (by decide) _⟩

end RFsrs
